import Mathlib

set_option maxRecDepth 8000

/- Shallow embedding of the `paginate` package of github.com/schollz/goscrape
   (src/paginate/paginate.go), together with the parts of Go's standard
   library `net/url` and `strconv` that it calls.  Go strings are modelled as
   lists of characters, each character standing for one byte; on the byte
   range (and in particular on ASCII, which covers every input of interest)
   the byte-wise operations of the Go library and the character-wise
   operations below coincide. -/

/-- Go strings, modelled as lists of characters (bytes). -/
abbrev GoStr := List Char

/-- Turn a Lean string literal into a `GoStr`. -/
def gs (s : String) : GoStr := s.data

/-- `strings.Cut(s, sep)` for a one-character separator:
returns (before, after, found). -/
def cutChar : GoStr → Char → GoStr × GoStr × Bool
  | [], _ => ([], [], false)
  | c :: rest, sep =>
    if c = sep then ([], rest, true)
    else
      let r := cutChar rest sep
      (c :: r.1, r.2.1, r.2.2)

/-- net/url `split(s, sep, true)`: split at the first occurrence of `sep`,
cutting the separator out. -/
def splitCut (s : GoStr) (sep : Char) : GoStr × GoStr :=
  ((cutChar s sep).1, (cutChar s sep).2.1)

/-- `strings.Index(s, string(c))` for a one-character substring. -/
def indexOfChar (s : GoStr) (c : Char) : Option Nat :=
  if (cutChar s c).2.2 then some (cutChar s c).1.length else none

/-- `strings.LastIndex(s, string(c))` for a one-character substring. -/
def lastIndexChar : GoStr → Char → Option Nat
  | [], _ => none
  | c :: rest, sep =>
    match lastIndexChar rest sep with
    | some i => some (i + 1)
    | none => if c = sep then some 0 else none

/-- `strings.Index(s, pat)` (first index of a substring). -/
def indexSub (s pat : GoStr) : Option Nat :=
  if pat.isPrefixOf s then some 0
  else
    match s with
    | [] => none
    | _ :: rest => (indexSub rest pat).map (· + 1)

/-- `strings.Contains(s, string(c))`. -/
def containsChar (s : GoStr) (c : Char) : Bool := s.contains c

/-- `strings.HasPrefix(s, p)`. -/
def hasPfx (s p : GoStr) : Bool := p.isPrefixOf s

/-- `strings.Split(s, string(sep))`. -/
def splitAllChar : GoStr → Char → List GoStr
  | [], _ => [[]]
  | c :: rest, sep =>
    if c = sep then [] :: splitAllChar rest sep
    else
      match splitAllChar rest sep with
      | [] => [[c]]
      | g :: groups => (c :: g) :: groups

/-- `strings.Join(xs, string(sep))`. -/
def intercalateChar (sep : Char) : List GoStr → GoStr
  | [] => []
  | [x] => x
  | x :: rest => x ++ sep :: intercalateChar sep rest

/-- ASCII letters and digits (net/url §2.3 unreserved alphanumerics). -/
def isAlphaNum (c : Char) : Bool :=
  if ('a' ≤ c ∧ c ≤ 'z') ∨ ('A' ≤ c ∧ c ≤ 'Z') ∨ ('0' ≤ c ∧ c ≤ '9') then true else false

/-- net/url `ishex`. -/
def ishex (c : Char) : Bool :=
  if ('0' ≤ c ∧ c ≤ '9') ∨ ('a' ≤ c ∧ c ≤ 'f') ∨ ('A' ≤ c ∧ c ≤ 'F') then true else false

/-- net/url `unhex`. -/
def unhex (c : Char) : Nat :=
  if '0' ≤ c ∧ c ≤ '9' then c.toNat - '0'.toNat
  else if 'a' ≤ c ∧ c ≤ 'f' then c.toNat - 'a'.toNat + 10
  else if 'A' ≤ c ∧ c ≤ 'F' then c.toNat - 'A'.toNat + 10
  else 0

/-- net/url escaping modes (`encodePath`, `encodeHost`, ...). -/
inductive EncMode where
  | path | pathSegment | host | zone | userPassword | queryComponent | fragment
deriving DecidableEq

/-- net/url `shouldEscape(c, mode)`. -/
def shouldEscape (c : Char) (mode : EncMode) : Bool :=
  if isAlphaNum c then false
  else if (mode = .host ∨ mode = .zone) ∧
      c ∈ ['!', '$', '&', '\'', '(', ')', '*', '+', ',', ';', '=', ':', '[', ']', '<', '>', '"'] then
    false
  else if c ∈ ['-', '_', '.', '~'] then false
  else if c ∈ ['$', '&', '+', ',', '/', ':', ';', '=', '?', '@'] then
    match mode with
    | .path => c = '?'
    | .pathSegment => c = '/' ∨ c = ';' ∨ c = ',' ∨ c = '?'
    | .userPassword => c = '@' ∨ c = '/' ∨ c = '?' ∨ c = ':'
    | .queryComponent => true
    | .fragment => false
    | _ => true
  else if mode = .fragment ∧ c ∈ ['!', '(', ')', '*'] then false
  else true

/-- Go error values reaching the paginate package (net/url errors and
`errors.New`/`fmt.Errorf` messages). -/
inductive GoErr where
  | escapeError (s : GoStr)
  | invalidHostError (s : GoStr)
  | errorMsg (s : GoStr)
  | urlError (op : GoStr) (input : GoStr) (err : GoErr)
deriving DecidableEq

deriving instance DecidableEq for Except

/-- net/url `unescape(s, mode)` (single pass; Go scans twice but returns the
first offending escape either way, which is all the callers observe). -/
def unescape : GoStr → EncMode → Except GoErr GoStr
  | [], _ => .ok []
  | '%' :: a :: b :: rest, mode =>
    if ishex a ∧ ishex b then
      if mode = .host ∧ unhex a < 8 ∧ ¬(a = '2' ∧ b = '5') then
        .error (.escapeError ['%', a, b])
      else if mode = .zone ∧
          ¬(a = '2' ∧ b = '5') ∧ unhex a * 16 + unhex b ≠ 32 ∧
          shouldEscape (Char.ofNat (unhex a * 16 + unhex b)) .host then
        .error (.escapeError ['%', a, b])
      else
        match unescape rest mode with
        | .ok t => .ok (Char.ofNat (unhex a * 16 + unhex b) :: t)
        | .error e => .error e
    else .error (.escapeError (('%' :: a :: b :: []).take 3))
  | '%' :: rest, _ => .error (.escapeError (('%' :: rest).take 3))
  | '+' :: rest, mode =>
    match unescape rest mode with
    | .ok t => .ok ((if mode = .queryComponent then ' ' else '+') :: t)
    | .error e => .error e
  | c :: rest, mode =>
    if (mode = .host ∨ mode = .zone) ∧ c.toNat < 0x80 ∧ shouldEscape c mode then
      .error (.invalidHostError [c])
    else
      match unescape rest mode with
      | .ok t => .ok (c :: t)
      | .error e => .error e

/-- Upper-case hex digit, as in net/url's `"0123456789ABCDEF"` table. -/
def upperhexDigit (n : Nat) : Char :=
  if n < 10 then Char.ofNat (48 + n) else Char.ofNat (65 + (n - 10))

/-- One character of net/url `escape`. -/
def escapeChar (c : Char) (mode : EncMode) : GoStr :=
  if shouldEscape c mode then
    if c = ' ' ∧ mode = .queryComponent then ['+']
    else ['%', upperhexDigit (c.toNat / 16), upperhexDigit (c.toNat % 16)]
  else [c]

/-- net/url `escape(s, mode)`. -/
def escape (s : GoStr) (mode : EncMode) : GoStr :=
  s.foldr (fun c acc => escapeChar c mode ++ acc) []

/-- net/url `validEncoded(s, mode)`. -/
def validEncoded (s : GoStr) (mode : EncMode) : Bool :=
  s.all fun c =>
    if c ∈ ['!', '$', '&', '\'', '(', ')', '*', '+', ',', ';', '=', ':', '@'] then true
    else if c = '[' ∨ c = ']' then true
    else if c = '%' then true
    else !shouldEscape c mode

/-- net/url `validOptionalPort(port)`. -/
def validOptionalPort : GoStr → Bool
  | [] => true
  | c :: rest =>
    if c = ':' then rest.all (fun b => if '0' ≤ b ∧ b ≤ '9' then true else false)
    else false

/-- net/url `validUserinfo(s)`. -/
def validUserinfo (s : GoStr) : Bool :=
  s.all fun r =>
    if isAlphaNum r then true
    else if r ∈ ['-', '.', '_', ':', '~', '!', '$', '&', '\'', '(', ')', '*', '+', ',', ';', '=', '%', '@'] then true
    else false

/-- net/url `stringContainsCTLByte(s)`. -/
def stringContainsCTLByte (s : GoStr) : Bool :=
  s.any fun c => if c.toNat < 32 ∨ c.toNat = 0x7f then true else false

/-- `strings.ToLower` restricted to ASCII (schemes only contain ASCII). -/
def toLowerGo (s : GoStr) : GoStr :=
  s.map fun c => if 'A' ≤ c ∧ c ≤ 'Z' then Char.ofNat (c.toNat + 32) else c

/-- net/url `URL`.  `userinfo` models `URL.User` as (username, optional
password); `opq` is Go's `URL.Opaque`. -/
structure URL where
  scheme : GoStr := []
  opq : GoStr := []
  userinfo : Option (GoStr × Option GoStr) := none
  host : GoStr := []
  path : GoStr := []
  rawPath : GoStr := []
  omitHost : Bool := false
  forceQuery : Bool := false
  rawQuery : GoStr := []
  fragment : GoStr := []
  rawFragment : GoStr := []
deriving DecidableEq

/-- net/url `Userinfo.String()`. -/
def userinfoString : Option (GoStr × Option GoStr) → GoStr
  | none => []
  | some (u, none) => escape u .userPassword
  | some (u, some pw) => escape u .userPassword ++ ':' :: escape pw .userPassword

/-- Loop of net/url `getScheme`; `acc` holds the scheme characters read so
far (so `acc = []` exactly when the Go loop is at `i == 0`). -/
def getSchemeAux (orig : GoStr) : GoStr → GoStr → Except GoErr (GoStr × GoStr)
  | [], _ => .ok ([], orig)
  | c :: rest, acc =>
    if ('a' ≤ c ∧ c ≤ 'z') ∨ ('A' ≤ c ∧ c ≤ 'Z') then getSchemeAux orig rest (acc ++ [c])
    else if ('0' ≤ c ∧ c ≤ '9') ∨ c = '+' ∨ c = '-' ∨ c = '.' then
      if acc = [] then .ok ([], orig) else getSchemeAux orig rest (acc ++ [c])
    else if c = ':' then
      if acc = [] then .error (.errorMsg (gs "missing protocol scheme"))
      else .ok (acc, rest)
    else .ok ([], orig)

/-- net/url `getScheme(rawURL)`: returns (scheme, rest). -/
def getScheme (rawURL : GoStr) : Except GoErr (GoStr × GoStr) :=
  getSchemeAux rawURL rawURL []

/-- net/url `parseHost(host)`. -/
def parseHost (host : GoStr) : Except GoErr GoStr :=
  if hasPfx host (gs "[") then
    match lastIndexChar host ']' with
    | none => .error (.errorMsg (gs "missing ']' in host"))
    | some i =>
      if ¬ validOptionalPort (host.drop (i + 1)) then
        .error (.errorMsg (gs "invalid port after host"))
      else
        match indexSub (host.take i) (gs "%25") with
        | some z =>
          match unescape (host.take z) .host with
          | .error e => .error e
          | .ok h1 =>
            match unescape ((host.take i).drop z) .zone with
            | .error e => .error e
            | .ok h2 =>
              match unescape (host.drop i) .host with
              | .error e => .error e
              | .ok h3 => .ok (h1 ++ h2 ++ h3)
        | none => unescape host .host
  else
    match lastIndexChar host ':' with
    | some i =>
      if ¬ validOptionalPort (host.drop i) then
        .error (.errorMsg (gs "invalid port after host"))
      else unescape host .host
    | none => unescape host .host

/-- net/url `parseAuthority(authority)`: returns (user, host). -/
def parseAuthority (authority : GoStr) : Except GoErr (Option (GoStr × Option GoStr) × GoStr) :=
  match lastIndexChar authority '@' with
  | none =>
    match parseHost authority with
    | .error e => .error e
    | .ok host => .ok (none, host)
  | some i =>
    match parseHost (authority.drop (i + 1)) with
    | .error e => .error e
    | .ok host =>
      let ui := authority.take i
      if ¬ validUserinfo ui then .error (.errorMsg (gs "net/url: invalid userinfo"))
      else if ¬ containsChar ui ':' then
        match unescape ui .userPassword with
        | .error e => .error e
        | .ok u => .ok (some (u, none), host)
      else
        match unescape (cutChar ui ':').1 .userPassword with
        | .error e => .error e
        | .ok u =>
          match unescape (cutChar ui ':').2.1 .userPassword with
          | .error e => .error e
          | .ok pw => .ok (some (u, some pw), host)

/-- net/url `(*URL).setPath(p)`. -/
def setPath (u : URL) (p : GoStr) : Except GoErr URL :=
  match unescape p .path with
  | .error e => .error e
  | .ok path =>
    if p = escape path .path then .ok { u with path := path, rawPath := [] }
    else .ok { u with path := path, rawPath := p }

/-- Helper for `escapedPath`/`escapedFragment`: Go's
`p, err := unescape(s, mode); err == nil && p == t`. -/
def unescapesTo (s : GoStr) (mode : EncMode) (t : GoStr) : Bool :=
  match unescape s mode with
  | .ok p => if p = t then true else false
  | .error _ => false

/-- net/url `(*URL).EscapedPath()`. -/
def escapedPath (u : URL) : GoStr :=
  if u.rawPath ≠ [] ∧ validEncoded u.rawPath .path = true ∧ unescapesTo u.rawPath .path u.path = true then
    u.rawPath
  else if u.path = gs "*" then gs "*"
  else escape u.path .path

/-- net/url `(*URL).setFragment(f)`. -/
def setFragment (u : URL) (f : GoStr) : Except GoErr URL :=
  match unescape f .fragment with
  | .error e => .error e
  | .ok frag =>
    if f = escape frag .fragment then .ok { u with fragment := frag, rawFragment := [] }
    else .ok { u with fragment := frag, rawFragment := f }

/-- net/url `(*URL).EscapedFragment()`. -/
def escapedFragment (u : URL) : GoStr :=
  if u.rawFragment ≠ [] ∧ validEncoded u.rawFragment .fragment = true ∧
      unescapesTo u.rawFragment .fragment u.fragment = true then
    u.rawFragment
  else escape u.fragment .fragment

/-- net/url `parse(rawURL, false)` (the `viaRequest = false` case used by
`url.Parse`). -/
def parseMain (rawURL : GoStr) : Except GoErr URL :=
  if stringContainsCTLByte rawURL then
    .error (.errorMsg (gs "net/url: invalid control character in URL"))
  else if rawURL = gs "*" then .ok { path := gs "*" }
  else
    match getScheme rawURL with
    | .error e => .error e
    | .ok (sch, afterScheme) =>
      let scheme := toLowerGo sch
      let rest0 := afterScheme
      let forceQuery := rest0.getLast? = some '?' ∧ ¬ containsChar rest0.dropLast '?'
      let rest := if forceQuery then rest0.dropLast else (splitCut rest0 '?').1
      let rawQuery := if forceQuery then [] else (splitCut rest0 '?').2
      if ¬ hasPfx rest (gs "/") ∧ scheme ≠ [] then
        .ok { scheme := scheme, opq := rest, forceQuery := forceQuery, rawQuery := rawQuery }
      else if ¬ hasPfx rest (gs "/") ∧ scheme = [] ∧ containsChar (cutChar rest '/').1 ':' then
        .error (.errorMsg (gs "first path segment in URL cannot contain colon"))
      else if (scheme ≠ [] ∨ ¬ hasPfx rest (gs "///")) ∧ hasPfx rest (gs "//") then
        let after := rest.drop 2
        let authority := if (cutChar after '/').2.2 then (cutChar after '/').1 else after
        let rest2 := if (cutChar after '/').2.2 then '/' :: (cutChar after '/').2.1 else []
        match parseAuthority authority with
        | .error e => .error e
        | .ok (user, host) =>
          setPath { scheme := scheme, userinfo := user, host := host,
                    forceQuery := forceQuery, rawQuery := rawQuery } rest2
      else
        setPath { scheme := scheme, omitHost := scheme ≠ [] ∧ hasPfx rest (gs "/"),
                  forceQuery := forceQuery, rawQuery := rawQuery } rest

/-- net/url `Parse(rawURL)`. -/
def urlParse (rawURL : GoStr) : Except GoErr URL :=
  let u := (splitCut rawURL '#').1
  let frag := (splitCut rawURL '#').2
  match parseMain u with
  | .error e => .error (.urlError (gs "parse") u e)
  | .ok url =>
    if frag = [] then .ok url
    else
      match setFragment url frag with
      | .error e => .error (.urlError (gs "parse") rawURL e)
      | .ok url2 => .ok url2

/-- net/url `resolvePath(base, ref)` (merge of a reference path with a base
path followed by removal of `.`/`..` segments, as net/url implements it). -/
def resolvePath (base ref : GoStr) : GoStr :=
  let full :=
    if ref = [] then base
    else if ref.head? ≠ some '/' then
      (match lastIndexChar base '/' with
       | some i => base.take (i + 1)
       | none => []) ++ ref
    else ref
  if full = [] then []
  else
    let src := splitAllChar full '/'
    let dst := src.foldl
      (fun dst e =>
        if e = gs "." then dst
        else if e = gs ".." then dst.dropLast
        else dst ++ [e])
      ([] : List GoStr)
    let dst := if src.getLast? = some (gs ".") ∨ src.getLast? = some (gs "..") then dst ++ [[]] else dst
    -- Go: "/" + strings.TrimPrefix(strings.Join(dst, "/"), "/"); TrimPrefix
    -- removes at most one leading "/", preserving paths that begin with "//".
    let joined := intercalateChar '/' dst
    '/' :: (if hasPfx joined (gs "/") then joined.drop 1 else joined)

/-- net/url `(*URL).ResolveReference(ref)` (errors from `setPath` cannot
occur on its validly-encoded inputs; they leave the URL unchanged here). -/
def resolveReference (u ref : URL) : URL :=
  let url0 := if ref.scheme = [] then { ref with scheme := u.scheme } else ref
  if ref.scheme ≠ [] ∨ ref.host ≠ [] ∨ ref.userinfo ≠ none then
    match setPath url0 (resolvePath (escapedPath ref) []) with
    | .ok u2 => u2
    | .error _ => url0
  else if ref.opq ≠ [] then
    { url0 with userinfo := none, host := [], path := [] }
  else
    let url1 :=
      if ref.path = [] ∧ ¬ ref.forceQuery ∧ ref.rawQuery = [] then
        let urlq := { url0 with rawQuery := u.rawQuery }
        if ref.fragment = [] then
          { urlq with fragment := u.fragment, rawFragment := u.rawFragment }
        else urlq
      else url0
    if ref.path = [] ∧ u.opq ≠ [] then
      { url1 with opq := u.opq, path := [] }
    else
      let url2 := { url1 with host := u.host, userinfo := u.userinfo }
      match setPath url2 (resolvePath (escapedPath u) (escapedPath ref)) with
      | .ok u2 => u2
      | .error _ => url2

/-- net/url `(*URL).String()`. -/
def urlString (u : URL) : GoStr :=
  let core :=
    if u.opq ≠ [] then (if u.scheme ≠ [] then u.scheme ++ [':'] else []) ++ u.opq
    else
      let b0 := if u.scheme ≠ [] then u.scheme ++ [':'] else []
      let b1 :=
        if u.scheme ≠ [] ∨ u.host ≠ [] ∨ u.userinfo ≠ none then
          if u.omitHost ∧ u.host = [] ∧ u.userinfo = none then b0
          else
            let ba := if u.host ≠ [] ∨ u.path ≠ [] ∨ u.userinfo ≠ none then b0 ++ gs "//" else b0
            let bb :=
              match u.userinfo with
              | some _ => ba ++ userinfoString u.userinfo ++ ['@']
              | none => ba
            if u.host ≠ [] then bb ++ escape u.host .host else bb
        else b0
      let path := escapedPath u
      let b2 := if path ≠ [] ∧ path.head? ≠ some '/' ∧ u.host ≠ [] then b1 ++ ['/'] else b1
      let b3 :=
        if b2 = [] ∧ containsChar (cutChar path '/').1 ':' then b2 ++ gs "./" else b2
      b3 ++ path
  let withQ := if u.forceQuery ∨ u.rawQuery ≠ [] then core ++ '?' :: u.rawQuery else core
  if u.fragment ≠ [] then withQ ++ '#' :: escapedFragment u else withQ

/-- net/url `Values` (`map[string][]string`), as an association list with
one entry per key (Go maps have no duplicate keys; iteration order is
irrelevant because `Encode` sorts the keys). -/
abbrev Values := List (GoStr × List GoStr)

/-- Go map lookup `v[key]` (with its `ok` flag as the `Option`). -/
def valuesGet (m : Values) (k : GoStr) : Option (List GoStr) :=
  match m.find? (fun p => if p.1 = k then true else false) with
  | some p => some p.2
  | none => none

/-- Go map assignment `v[key] = vs` (inserts at the end when absent). -/
def valuesSet : Values → GoStr → List GoStr → Values
  | [], k, v => [(k, v)]
  | (k', v') :: rest, k, v =>
    if k' = k then (k', v) :: rest else (k', v') :: valuesSet rest k v

/-- net/url `v[key] = append(v[key], value)` inside `parseQuery`. -/
def valuesAdd (m : Values) (k : GoStr) (v : GoStr) : Values :=
  match valuesGet m k with
  | some vs => valuesSet m k (vs ++ [v])
  | none => valuesSet m k [v]

/-- Body of net/url `parseQuery`, one `&`-separated chunk at a time (Go's
loop of `strings.Cut(query, "&")` visits exactly these chunks; Go keeps
scanning after an error but returns the error, which is all the caller
observes). -/
def parseQueryChunks : List GoStr → Values → Except GoErr Values
  | [], m => .ok m
  | chunk :: rest, m =>
    if containsChar chunk ';' then .error (.errorMsg (gs "invalid semicolon separator in query"))
    else if chunk = [] then parseQueryChunks rest m
    else
      match unescape (cutChar chunk '=').1 .queryComponent with
      | .error e => .error e
      | .ok k =>
        match unescape (cutChar chunk '=').2.1 .queryComponent with
        | .error e => .error e
        | .ok v => parseQueryChunks rest (valuesAdd m k v)

/-- net/url `ParseQuery(query)`. -/
def parseQueryGo (query : GoStr) : Except GoErr Values :=
  if query = [] then .ok []
  else parseQueryChunks (splitAllChar query '&') []

/-- Go `s < t` on strings (byte-wise lexicographic; on UTF-8 data byte
order and code-point order coincide). -/
def goStrLt : GoStr → GoStr → Bool
  | [], [] => false
  | [], _ :: _ => true
  | _ :: _, [] => false
  | a :: s, b :: t => if a = b then goStrLt s t else if a.toNat < b.toNat then true else false

/-- Go `s <= t` on strings. -/
def goStrLe (s t : GoStr) : Bool := ! goStrLt t s

/-- Insertion step of the key sort in net/url `Values.Encode`. -/
def insertKey (k : GoStr) : List GoStr → List GoStr
  | [] => [k]
  | k' :: rest => if goStrLe k k' then k :: k' :: rest else k' :: insertKey k rest

/-- `sort.Strings(keys)` in net/url `Values.Encode` (any comparison sort:
with the distinct keys of a Go map the sorted arrangement is unique). -/
def sortStrings : List GoStr → List GoStr
  | [] => []
  | k :: rest => insertKey k (sortStrings rest)

/-- net/url `QueryEscape`. -/
def queryEscapeGo (s : GoStr) : GoStr := escape s .queryComponent

/-- The `key=value` pieces one key contributes to net/url `Values.Encode`. -/
def encodePiece (m : Values) (k : GoStr) : List GoStr :=
  match valuesGet m k with
  | some vs => vs.map (fun v => queryEscapeGo k ++ '=' :: queryEscapeGo v)
  | none => []

/-- net/url `Values.Encode()`: keys sorted, pieces joined by `&`. -/
def valuesEncode (m : Values) : GoStr :=
  intercalateChar '&'
    ((sortStrings (m.map Prod.fst)).foldr (fun k acc => encodePiece m k ++ acc) [])

/-- Go `math.MaxUint64`. -/
def maxUint64 : Nat := 2 ^ 64 - 1

/-- Digit loop of strconv `ParseUint(s, 10, 64)`, with Go's two overflow
checks (`n >= cutoff` and `n1 > maxVal`). -/
def parseUintLoop : GoStr → Nat → Option Nat
  | [], n => some n
  | c :: rest, n =>
    if '0' ≤ c ∧ c ≤ '9' then
      if n ≥ maxUint64 / 10 + 1 then none
      else
        if n * 10 + (c.toNat - '0'.toNat) > maxUint64 then none
        else parseUintLoop rest (n * 10 + (c.toNat - '0'.toNat))
    else none

/-- strconv `ParseUint(s, 10, 64)`; `none` stands for any non-nil error
(syntax or range), which is all the caller checks. -/
def parseUint (s : GoStr) : Option Nat :=
  if s = [] then none else parseUintLoop s 0

/-- strconv `FormatUint(n, 10)` for `n < 2^64`. -/
def formatUint (n : Nat) : GoStr := Nat.toDigits 10 n

/-- The mathematical value of a digit string (used to state range facts). -/
def decimalVal (s : GoStr) : Nat :=
  s.foldl (fun x c => x * 10 + (c.toNat - '0'.toNat)) 0

/-- `s` is the decimal representation of a non-negative integer. -/
def isDecimalString (s : GoStr) : Prop :=
  s ≠ [] ∧ ∀ c ∈ s, '0' ≤ c ∧ c ≤ '9'

instance (s : GoStr) : Decidable (isDecimalString s) := by
  unfold isDecimalString; infer_instance

/-- The external parsed-document collaborator: `doc.Find(sel).Attr(attr)`
of goquery, i.e. the attribute of the first element matched by the
selector, when present. -/
def Doc := GoStr → GoStr → Option GoStr

/-- `bySelectorPaginator.NextPage(uri, doc)` for the paginator built by
`BySelector(sel, attr)`.  `.ok s` is Go's `(s, nil)`, `.error e` is
`("", e)`. -/
def nextPageSelector (sel attr : GoStr) (doc : Doc) (uri : GoStr) : Except GoErr GoStr :=
  match doc sel attr with
  | none => .ok []
  | some val =>
    match urlParse uri with
    | .error e => .error e
    | .ok base =>
      match urlParse val with
      | .error e => .error e
      | .ok attrUrl => .ok (urlString (resolveReference base attrUrl))

/-- `byQueryParamPaginator.NextPage(u, _)` for the paginator built by
`ByQueryParam(param)`. -/
def nextPageQuery (param : GoStr) (u : GoStr) : Except GoErr GoStr :=
  match urlParse u with
  | .error e => .error e
  | .ok uri =>
    match parseQueryGo uri.rawQuery with
    | .error e => .error e
    | .ok vals =>
      match valuesGet vals param with
      | none => .ok []
      | some params =>
        if params.length < 1 then .ok []
        else
          match parseUint (params.headD []) with
          | none => .ok []
          | some parsed =>
            let params2 := params.set 0 (formatUint ((parsed + 1) % 2 ^ 64))
            let vals2 := valuesSet vals param params2
            .ok (urlString { uri with rawQuery := valuesEncode vals2 })

/-- Go's `(string, error)` result of a `Paginator.NextPage` call. -/
structure PagResult where
  url : GoStr
  err : Option GoErr
deriving DecidableEq

/-- An arbitrary inner `scrape.Paginator` with hidden state `σ`:
`NextPage(url, doc)` returning a result and its next state. -/
def Paginator (σ : Type) := GoStr → Doc → σ → PagResult × σ

/-- The mutable state of a `limitPagesPaginator` wrapping an inner
paginator whose own state has type `σ` (`current` and `limit` are Go
`int`s, i.e. 64-bit). -/
structure LimitPagesState (σ : Type) where
  current : Int
  limit : Int
  inner : σ
deriving DecidableEq

/-- `LimitPages(limit, underlying)`: fresh state with `current = 0`. -/
def LimitPages {σ : Type} (limit : Int) (innerInit : σ) : LimitPagesState σ :=
  ⟨0, limit, innerInit⟩

/-- Two's-complement wrap of Go 64-bit `int` arithmetic. -/
def int64Wrap (x : Int) : Int := (x + 2 ^ 63) % 2 ^ 64 - 2 ^ 63

/-- `limitPagesPaginator.NextPage(url, sel)`: stop at the cap, otherwise
increment `current` and delegate. -/
def limitNextPage {σ : Type} (underlying : Paginator σ) (u : GoStr) (d : Doc)
    (st : LimitPagesState σ) : PagResult × LimitPagesState σ :=
  if st.current ≥ st.limit then (⟨[], none⟩, st)
  else
    let r := underlying u d st.inner
    (r.1, ⟨int64Wrap (st.current + 1), st.limit, r.2⟩)

/-- A sequence of `NextPage` calls on one `limitPagesPaginator` instance,
returning the results in order and the final state. -/
def limitRun {σ : Type} (underlying : Paginator σ) :
    List (GoStr × Doc) → LimitPagesState σ → List PagResult × LimitPagesState σ
  | [], st => ([], st)
  | (u, d) :: rest, st =>
    let r := limitNextPage underlying u d st
    let rr := limitRun underlying rest r.2
    (r.1 :: rr.1, rr.2)

/-- Modelled from the spec: RFC 3986 §5.2.4 `remove_dot_segments`.  The
fuel is the input length + 1; every iteration of the RFC loop strictly
shortens the input, so the fuel never runs out. -/
def removeDotSegmentsAux : Nat → GoStr → GoStr → GoStr
  | 0, _, output => output
  | _ + 1, [], output => output
  | fuel + 1, c :: tl, output =>
    if hasPfx (c :: tl) (gs "../") then removeDotSegmentsAux fuel ((c :: tl).drop 3) output
    else if hasPfx (c :: tl) (gs "./") then removeDotSegmentsAux fuel ((c :: tl).drop 2) output
    else if hasPfx (c :: tl) (gs "/./") then removeDotSegmentsAux fuel ('/' :: (c :: tl).drop 3) output
    else if c :: tl = gs "/." then removeDotSegmentsAux fuel (gs "/") output
    else if hasPfx (c :: tl) (gs "/../") then
      removeDotSegmentsAux fuel ('/' :: (c :: tl).drop 4)
        (((output.reverse.dropWhile (fun x => ¬ x = '/')).drop 1).reverse)
    else if c :: tl = gs "/.." then
      removeDotSegmentsAux fuel (gs "/")
        (((output.reverse.dropWhile (fun x => ¬ x = '/')).drop 1).reverse)
    else if c :: tl = gs "." ∨ c :: tl = gs ".." then removeDotSegmentsAux fuel [] output
    else if c = '/' then
      removeDotSegmentsAux fuel
        (if (cutChar tl '/').2.2 then '/' :: (cutChar tl '/').2.1 else [])
        (output ++ '/' :: (cutChar tl '/').1)
    else
      removeDotSegmentsAux fuel
        (if (cutChar (c :: tl) '/').2.2 then '/' :: (cutChar (c :: tl) '/').2.1 else [])
        (output ++ (cutChar (c :: tl) '/').1)

/-- Modelled from the spec: RFC 3986 §5.2.4 `remove_dot_segments`. -/
def removeDotSegments (input : GoStr) : GoStr :=
  removeDotSegmentsAux (input.length + 1) input []

/-- Modelled from the spec: RFC 3986 §5.2.3 `merge(Base, R)`. -/
def rfcMerge (base : URL) (refPath : GoStr) : GoStr :=
  if (base.host ≠ [] ∨ base.userinfo ≠ none) ∧ base.path = [] then '/' :: refPath
  else
    match lastIndexChar base.path '/' with
    | some i => base.path.take (i + 1) ++ refPath
    | none => refPath

/-- Modelled from the spec: RFC 3986 §5.2.2 strict transform-references
("standard URI reference resolution" of spec §4.1 step 5), on the same URL
record the net/url model uses; a defined query of the reference is modelled
as `rawQuery ≠ [] ∨ forceQuery`. -/
def rfc3986Resolve (base r : URL) : URL :=
  if r.scheme ≠ [] then
    { scheme := r.scheme, userinfo := r.userinfo, host := r.host,
      path := removeDotSegments r.path, rawQuery := r.rawQuery,
      forceQuery := r.forceQuery, fragment := r.fragment }
  else if r.host ≠ [] ∨ r.userinfo ≠ none then
    { scheme := base.scheme, userinfo := r.userinfo, host := r.host,
      path := removeDotSegments r.path, rawQuery := r.rawQuery,
      forceQuery := r.forceQuery, fragment := r.fragment }
  else if r.path = [] then
    { scheme := base.scheme, userinfo := base.userinfo, host := base.host,
      path := base.path,
      rawQuery := if r.rawQuery ≠ [] ∨ r.forceQuery then r.rawQuery else base.rawQuery,
      forceQuery := if r.rawQuery ≠ [] ∨ r.forceQuery then r.forceQuery else base.forceQuery,
      fragment := r.fragment }
  else if hasPfx r.path (gs "/") then
    { scheme := base.scheme, userinfo := base.userinfo, host := base.host,
      path := removeDotSegments r.path, rawQuery := r.rawQuery,
      forceQuery := r.forceQuery, fragment := r.fragment }
  else
    { scheme := base.scheme, userinfo := base.userinfo, host := base.host,
      path := removeDotSegments (rfcMerge base r.path), rawQuery := r.rawQuery,
      forceQuery := r.forceQuery, fragment := r.fragment }

/-! Helper lemmas. -/

theorem int64Wrap_eq_self (x : Int) (h1 : -2 ^ 63 ≤ x) (h2 : x < 2 ^ 63) :
    int64Wrap x = x := by
  unfold int64Wrap
  omega

theorem limitNextPage_stop {σ : Type} (underlying : Paginator σ) (u : GoStr) (d : Doc)
    (st : LimitPagesState σ) (h : st.current ≥ st.limit) :
    limitNextPage underlying u d st = (⟨[], none⟩, st) := by
  simp [limitNextPage, h]

theorem limitRun_stopped {σ : Type} (underlying : Paginator σ) (calls : List (GoStr × Doc))
    (st : LimitPagesState σ) (h : st.current ≥ st.limit) :
    limitRun underlying calls st = (calls.map fun _ => (⟨[], none⟩ : PagResult), st) := by
  induction calls with
  | nil => simp [limitRun]
  | cons cd rest ih =>
    obtain ⟨u, d⟩ := cd
    simp [limitRun, limitNextPage_stop underlying u d st h, ih]

theorem parseUintLoop_digits (s : GoStr) :
    ∀ a n, parseUintLoop s a = some n → ∀ c ∈ s, '0' ≤ c ∧ c ≤ '9' := by
  induction s with
  | nil => intro a n _ c hc; cases hc
  | cons d rest ih =>
    intro a n h c hc
    rw [parseUintLoop] at h
    by_cases hd : '0' ≤ d ∧ d ≤ '9'
    · rw [if_pos hd] at h
      by_cases hcut : a ≥ maxUint64 / 10 + 1
      · rw [if_pos hcut] at h; simp at h
      · rw [if_neg hcut] at h
        by_cases hov : a * 10 + (d.toNat - '0'.toNat) > maxUint64
        · rw [if_pos hov] at h; simp at h
        · rw [if_neg hov] at h
          rcases List.mem_cons.mp hc with rfl | hm
          · exact hd
          · exact ih _ _ h c hm
    · rw [if_neg hd] at h; simp at h

theorem parseUintLoop_le (s : GoStr) :
    ∀ a n, a ≤ maxUint64 → parseUintLoop s a = some n → n ≤ maxUint64 := by
  induction s with
  | nil =>
    intro a n ha h
    rw [parseUintLoop] at h
    exact (Option.some.inj h) ▸ ha
  | cons d rest ih =>
    intro a n ha h
    rw [parseUintLoop] at h
    by_cases hd : '0' ≤ d ∧ d ≤ '9'
    · rw [if_pos hd] at h
      by_cases hcut : a ≥ maxUint64 / 10 + 1
      · rw [if_pos hcut] at h; simp at h
      · rw [if_neg hcut] at h
        by_cases hov : a * 10 + (d.toNat - '0'.toNat) > maxUint64
        · rw [if_pos hov] at h; simp at h
        · rw [if_neg hov] at h
          exact ih _ _ (by omega) h
    · rw [if_neg hd] at h; simp at h

theorem parseUintLoop_val (s : GoStr) :
    ∀ a n, parseUintLoop s a = some n →
      n = s.foldl (fun x c => x * 10 + (c.toNat - '0'.toNat)) a := by
  induction s with
  | nil =>
    intro a n h
    rw [parseUintLoop] at h
    simpa using (Option.some.inj h).symm
  | cons d rest ih =>
    intro a n h
    rw [parseUintLoop] at h
    by_cases hd : '0' ≤ d ∧ d ≤ '9'
    · rw [if_pos hd] at h
      by_cases hcut : a ≥ maxUint64 / 10 + 1
      · rw [if_pos hcut] at h; simp at h
      · rw [if_neg hcut] at h
        by_cases hov : a * 10 + (d.toNat - '0'.toNat) > maxUint64
        · rw [if_pos hov] at h; simp at h
        · rw [if_neg hov] at h
          rw [List.foldl_cons]
          exact ih _ _ h
    · rw [if_neg hd] at h; simp at h

theorem parseUint_le (s : GoStr) (n : Nat) (h : parseUint s = some n) : n ≤ maxUint64 := by
  rw [parseUint] at h
  by_cases hs : s = []
  · rw [if_pos hs] at h; simp at h
  · rw [if_neg hs] at h
    exact parseUintLoop_le s 0 n (Nat.zero_le _) h

theorem parseUint_val (s : GoStr) (n : Nat) (h : parseUint s = some n) : n = decimalVal s := by
  rw [parseUint] at h
  by_cases hs : s = []
  · rw [if_pos hs] at h; simp at h
  · rw [if_neg hs] at h
    exact parseUintLoop_val s 0 n h

theorem parseUint_none_of_not_decimal (s : GoStr) (h : ¬ isDecimalString s) :
    parseUint s = none := by
  rw [parseUint]
  by_cases hs : s = []
  · rw [if_pos hs]
  · rw [if_neg hs]
    cases hp : parseUintLoop s 0 with
    | none => rfl
    | some n => exact absurd ⟨hs, parseUintLoop_digits s 0 n hp⟩ h

theorem goStrLt_asymm : ∀ s t : GoStr, goStrLt s t = true → goStrLt t s = false := by
  intro s
  induction s with
  | nil =>
    intro t h
    cases t with
    | nil => simp [goStrLt] at h
    | cons b tl => simp [goStrLt]
  | cons a s2 ih =>
    intro t h
    cases t with
    | nil => simp [goStrLt] at h
    | cons b tl =>
      rw [goStrLt] at h ⊢
      by_cases hab : a = b
      · rw [if_pos hab] at h
        rw [if_pos hab.symm]
        exact ih tl h
      · rw [if_neg hab] at h
        rw [if_neg (fun hba => hab hba.symm)]
        by_cases hlt : a.toNat < b.toNat
        · rw [if_neg (by omega)]
        · rw [if_neg hlt] at h; simp at h

theorem goStrLe_total (s t : GoStr) : goStrLe s t = true ∨ goStrLe t s = true := by
  unfold goStrLe
  cases h : goStrLt t s with
  | false => left; rfl
  | true => right; rw [goStrLt_asymm t s h]; rfl

theorem chain_insertKey (k : GoStr) :
    ∀ l : List GoStr, List.Chain' (fun a b => goStrLe a b = true) l →
      List.Chain' (fun a b => goStrLe a b = true) (insertKey k l) := by
  intro l
  induction l with
  | nil => intro _; rw [insertKey]; exact List.chain'_singleton k
  | cons k2 rest ih =>
    intro h
    rw [insertKey]
    by_cases hle : goStrLe k k2 = true
    · rw [if_pos hle]
      exact List.Chain'.cons hle h
    · rw [if_neg hle]
      have hk2k : goStrLe k2 k = true := by
        rcases goStrLe_total k k2 with h1 | h1
        · exact absurd h1 hle
        · exact h1
      refine List.chain'_cons'.mpr ⟨?_, ih h.tail⟩
      intro y hy
      cases rest with
      | nil =>
        rw [insertKey] at hy
        simp at hy
        subst hy
        exact hk2k
      | cons a rs =>
        rw [insertKey] at hy
        by_cases ha : goStrLe k a = true
        · rw [if_pos ha] at hy
          simp at hy
          subst hy
          exact hk2k
        · rw [if_neg ha] at hy
          simp at hy
          subst hy
          exact (List.chain'_cons.mp h).1

theorem sortStrings_chain (ks : List GoStr) :
    List.Chain' (fun a b => goStrLe a b = true) (sortStrings ks) := by
  induction ks with
  | nil => rw [sortStrings]; exact List.chain'_nil
  | cons k rest ih =>
    rw [sortStrings]
    exact chain_insertKey k _ ih

/-! Claim theorems. -/

/-- C1 (amended): `byQueryParamPaginator.NextPage` re-encodes the query
with `Values.Encode`, which emits the parameters ordered by sorted key,
not in their original order; on `http://x/?sort=asc&page=3` with param
`page` it returns `http://x/?page=4&sort=asc`. -/
theorem c1_query_keys_sorted :
    nextPageQuery (gs "page") (gs "http://x/?sort=asc&page=3") =
      .ok (gs "http://x/?page=4&sort=asc") ∧
    ∀ ks : List GoStr, List.Chain' (fun a b => goStrLe a b = true) (sortStrings ks) :=
  ⟨by decide, sortStrings_chain⟩

/-- C1 counterexample: on `http://x/?sort=asc&page=3` the other parameter
`sort` is moved behind `page` (keys are sorted), so the original order is
not preserved. -/
theorem c1_counterexample :
    nextPageQuery (gs "page") (gs "http://x/?sort=asc&page=3") =
      .ok (gs "http://x/?page=4&sort=asc") ∧
    gs "http://x/?page=4&sort=asc" ≠ gs "http://x/?sort=asc&page=4" :=
  ⟨by decide, by decide⟩

/-- C2 (amended): the parameter value is parsed in the unsigned 64-bit
range; a value whose magnitude is 2^64 or more is treated like any other
parse failure — the call returns `("", nil)`, no fatal error — and the
successor of 2^64 - 1 is silently wrapped to 0 by Go's uint64 addition. -/
theorem c2_uint64_range_semantics (param u : GoStr) (uri : URL) (vals : Values)
    (v : GoStr) (vs : List GoStr)
    (h1 : urlParse u = .ok uri) (h2 : parseQueryGo uri.rawQuery = .ok vals)
    (h3 : valuesGet vals param = some (v :: vs)) :
    (2 ^ 64 ≤ decimalVal v → nextPageQuery param u = .ok []) ∧
    (parseUint v = some (2 ^ 64 - 1) →
      nextPageQuery param u =
        .ok (urlString
          { uri with rawQuery := valuesEncode (valuesSet vals param (gs "0" :: vs)) })) := by
  constructor
  · intro hbig
    cases hp : parseUint v with
    | none => simp [nextPageQuery, h1, h2, h3, hp]
    | some n =>
      exfalso
      have hval := parseUint_val v n hp
      have hle := parseUint_le v n hp
      rw [maxUint64] at hle
      omega
  · intro hp
    have h0 : formatUint ((2 ^ 64 - 1 + 1) % 2 ^ 64) = gs "0" := by decide
    have h00 : formatUint 0 = gs "0" := by decide
    simp [nextPageQuery, h1, h2, h3, hp, List.set, h0, h00]

/-- Witness for C2 (amended): a 21-digit value ends pagination with
`("", nil)`, and the maximum uint64 value wraps to `page=0`. -/
theorem c2_witness :
    nextPageQuery (gs "page") (gs "http://x/?page=18446744073709551616") = .ok [] ∧
    nextPageQuery (gs "page") (gs "http://x/?page=18446744073709551615") =
      .ok (gs "http://x/?page=0") := by
  constructor
  · exact (c2_uint64_range_semantics (gs "page") (gs "http://x/?page=18446744073709551616")
      { scheme := gs "http", host := gs "x", path := gs "/",
        rawQuery := gs "page=18446744073709551616" }
      [(gs "page", [gs "18446744073709551616"])] (gs "18446744073709551616") []
      (by decide) (by decide) (by decide)).1 (by decide)
  · exact ((c2_uint64_range_semantics (gs "page") (gs "http://x/?page=18446744073709551615")
      { scheme := gs "http", host := gs "x", path := gs "/",
        rawQuery := gs "page=18446744073709551615" }
      [(gs "page", [gs "18446744073709551615"])] (gs "18446744073709551615") []
      (by decide) (by decide) (by decide)).2 (by decide)).trans (by decide)

/-- C2 counterexample: an out-of-range parameter value does not make the
call fail — it returns `("", nil)` (silent stop) — and at the maximum
uint64 value the successor silently wraps to 0 instead of failing. -/
theorem c2_counterexample :
    nextPageQuery (gs "page") (gs "http://x/?page=18446744073709551616") = .ok [] ∧
    nextPageQuery (gs "page") (gs "http://x/?page=18446744073709551615") =
      .ok (gs "http://x/?page=0") ∧
    gs "http://x/?page=0" ≠ gs "http://x/?page=18446744073709551616" :=
  ⟨by decide, by decide, by decide⟩

/-- C3: for every LimitingPaginator state with current >= limit, every call
(any sequence of calls) returns `("", nil)`, leaves the state — in
particular `current` — unchanged, and never invokes the wrapped inner
Paginator (the outcome is the same for every inner strategy); with
limit == 0 the very first call already returns `("", nil)`. -/
theorem c3_limit_reached_stops {σ : Type} (underlying : Paginator σ)
    (calls : List (GoStr × Doc)) (st : LimitPagesState σ)
    (h : st.current ≥ st.limit) :
    limitRun underlying calls st = (calls.map fun _ => (⟨[], none⟩ : PagResult), st) ∧
    ∀ other : Paginator σ, limitRun other calls st = limitRun underlying calls st := by
  refine ⟨limitRun_stopped underlying calls st h, fun other => ?_⟩
  rw [limitRun_stopped underlying calls st h, limitRun_stopped other calls st h]

/-- Witness for C3: on a fresh `LimitPages 0` both of two successive calls
return `("", nil)` and the state stays at current = 0, with an inner
strategy that would return a non-empty URL if it were ever invoked. -/
theorem c3_witness :
    limitRun (σ := Unit) (fun _ _ s => (⟨gs "https://inner.example/", none⟩, s))
      [(gs "http://x/", fun _ _ => none), (gs "http://y/", fun _ _ => none)]
      (LimitPages 0 ()) =
      ([⟨[], none⟩, ⟨[], none⟩], LimitPages 0 ()) := by
  have h := c3_limit_reached_stops (σ := Unit)
      (fun _ _ s => (⟨gs "https://inner.example/", none⟩, s))
      [(gs "http://x/", fun _ _ => none), (gs "http://y/", fun _ _ => none)]
      (LimitPages 0 ()) (by decide)
  exact h.1.trans (by decide)

/-- C4 (amended): `bySelectorPaginator.NextPage` resolves the extracted
reference against the base with net/url's `ResolveReference`; that
algorithm agrees with RFC 3986 §5 on the RFC's examples — base
`http://a/b/c/d;p?q` with reference `g` gives `http://a/b/c/g` under both —
but (see the counterexample) net/url additionally removes dot segments
from the base path when the reference path is empty.  Merged paths keep a
leading `//` (Go trims at most one slash): base `http://h//x/y` with
reference `g` gives `http://h//x/g`. -/
theorem c4_resolution (sel attr : GoStr) (doc : Doc) (uri val : GoStr) (base ref : URL)
    (hdoc : doc sel attr = some val)
    (hbase : urlParse uri = .ok base) (href : urlParse val = .ok ref) :
    nextPageSelector sel attr doc uri = .ok (urlString (resolveReference base ref)) ∧
    urlString (resolveReference
        { scheme := gs "http", host := gs "a", path := gs "/b/c/d;p", rawQuery := gs "q" }
        { path := gs "g" }) = gs "http://a/b/c/g" ∧
    urlString (rfc3986Resolve
        { scheme := gs "http", host := gs "a", path := gs "/b/c/d;p", rawQuery := gs "q" }
        { path := gs "g" }) = gs "http://a/b/c/g" ∧
    nextPageSelector (gs "a.next") (gs "href") (fun _ _ => some (gs "g"))
      (gs "http://h//x/y") = .ok (gs "http://h//x/g") :=
  ⟨by simp [nextPageSelector, hdoc, hbase, href], by decide, by decide, by decide⟩

/-- Witness for C4: the RFC 3986 §5.4.1 example — reference `g` against
base `http://a/b/c/d;p?q` — resolved through NextPage. -/
theorem c4_witness :
    nextPageSelector (gs "a.next") (gs "href") (fun _ _ => some (gs "g"))
      (gs "http://a/b/c/d;p?q") = .ok (gs "http://a/b/c/g") := by
  have h := c4_resolution (gs "a.next") (gs "href") (fun _ _ => some (gs "g"))
    (gs "http://a/b/c/d;p?q") (gs "g")
    { scheme := gs "http", host := gs "a", path := gs "/b/c/d;p", rawQuery := gs "q" }
    { path := gs "g" } rfl (by decide) (by decide)
  exact h.1.trans (by decide)

/-- C4 counterexample: for the fragment-only reference `#f` against base
`http://a/b/./c`, RFC 3986 §5.2.2 keeps the base path (giving
`http://a/b/./c#f`), but the code returns `http://a/b/c#f` — net/url
removes the base path's dot segments even though the reference path is
empty. -/
theorem c4_counterexample :
    nextPageSelector (gs "a.next") (gs "href") (fun _ _ => some (gs "#f"))
      (gs "http://a/b/./c") = .ok (gs "http://a/b/c#f") ∧
    urlParse (gs "http://a/b/./c") =
      .ok { scheme := gs "http", host := gs "a", path := gs "/b/./c" } ∧
    urlParse (gs "#f") = .ok { fragment := gs "f" } ∧
    urlString (rfc3986Resolve
        { scheme := gs "http", host := gs "a", path := gs "/b/./c" }
        { fragment := gs "f" }) = gs "http://a/b/./c#f" ∧
    gs "http://a/b/c#f" ≠ gs "http://a/b/./c#f" :=
  ⟨by decide, by decide, by decide, by decide, by decide⟩

/-- C5 (amended): when the first value of the configured parameter parses
(per `strconv.ParseUint`, i.e. it is a digit string with value n < 2^64),
NextPage replaces that first value with the decimal string of
(n + 1) mod 2^64 — the decimal string of n + 1 in every case except
n = 2^64 - 1, where the sum wraps to 0 — leaves the remaining values of
the parameter untouched, and returns the re-assembled URL. -/
theorem c5_increments_first_value (param u : GoStr) (uri : URL) (vals : Values)
    (v : GoStr) (vs : List GoStr) (n : Nat)
    (h1 : urlParse u = .ok uri) (h2 : parseQueryGo uri.rawQuery = .ok vals)
    (h3 : valuesGet vals param = some (v :: vs)) (h4 : parseUint v = some n) :
    nextPageQuery param u =
      .ok (urlString
        { uri with
          rawQuery := valuesEncode (valuesSet vals param (formatUint ((n + 1) % 2 ^ 64) :: vs)) }) := by
  simp [nextPageQuery, h1, h2, h3, h4, List.set]

/-- Witness for C5: `http://x/?page=3` with param `page` becomes
`http://x/?page=4`. -/
theorem c5_witness :
    nextPageQuery (gs "page") (gs "http://x/?page=3") = .ok (gs "http://x/?page=4") := by
  have h := c5_increments_first_value (gs "page") (gs "http://x/?page=3")
    { scheme := gs "http", host := gs "x", path := gs "/", rawQuery := gs "page=3" }
    [(gs "page", [gs "3"])] (gs "3") [] 3 (by decide) (by decide) (by decide) (by decide)
  exact h.trans (by decide)

/-- C5 counterexample: at n = 2^64 - 1 (which `strconv.ParseUint` accepts)
the first value is replaced by `0`, not by the decimal string of n + 1. -/
theorem c5_counterexample :
    nextPageQuery (gs "page") (gs "http://x/?page=18446744073709551615") =
      .ok (gs "http://x/?page=0") ∧
    gs "http://x/?page=0" ≠ gs "http://x/?page=18446744073709551616" :=
  ⟨by decide, by decide⟩

/-- C6: when the configured parameter is absent, has zero values, or its
first value is not the decimal representation of a non-negative integer,
NextPage returns `("", nil)` — never an error. -/
theorem c6_missing_or_non_numeric (param u : GoStr) (uri : URL) (vals : Values)
    (h1 : urlParse u = .ok uri) (h2 : parseQueryGo uri.rawQuery = .ok vals)
    (h3 : valuesGet vals param = none ∨ valuesGet vals param = some [] ∨
      ∃ v vs, valuesGet vals param = some (v :: vs) ∧ ¬ isDecimalString v) :
    nextPageQuery param u = .ok [] := by
  rcases h3 with h3 | h3 | ⟨v, vs, h3, hv⟩
  · simp [nextPageQuery, h1, h2, h3]
  · simp [nextPageQuery, h1, h2, h3]
  · have hp : parseUint v = none := parseUint_none_of_not_decimal v hv
    simp [nextPageQuery, h1, h2, h3, hp]

/-- Witness for C6: `http://x/?page=abc` returns `("", nil)`, not an
error. -/
theorem c6_witness :
    nextPageQuery (gs "page") (gs "http://x/?page=abc") = .ok [] :=
  c6_missing_or_non_numeric (gs "page") (gs "http://x/?page=abc")
    { scheme := gs "http", host := gs "x", path := gs "/", rawQuery := gs "page=abc" }
    [(gs "page", [gs "abc"])] (by decide) (by decide)
    (Or.inr (Or.inr ⟨gs "abc", [], by decide, by decide⟩))

/-- C7: when the selector matches no element or the matched element lacks
the attribute (the document lookup yields nothing),
`bySelectorPaginator.NextPage` returns `("", nil)`. -/
theorem c7_no_match_ends (sel attr : GoStr) (doc : Doc) (uri : GoStr)
    (h : doc sel attr = none) :
    nextPageSelector sel attr doc uri = .ok [] := by
  simp [nextPageSelector, h]

/-- Witness for C7. -/
theorem c7_witness :
    nextPageSelector (gs "a.next") (gs "href") (fun _ _ => none) (gs "http://x/") = .ok [] :=
  c7_no_match_ends (gs "a.next") (gs "href") (fun _ _ => none) (gs "http://x/") rfl

/-- C8: with current < limit (current and limit being Go 64-bit ints), a
NextPage call increments current by exactly 1 and returns the inner
strategy's result — URL and error — unchanged; the equation holds for
every inner result, so the counter is incremented also when the inner
call returns an error. -/
theorem c8_delegates_and_increments {σ : Type} (underlying : Paginator σ)
    (u : GoStr) (d : Doc) (st : LimitPagesState σ)
    (h : st.current < st.limit) (h1 : -2 ^ 63 ≤ st.current) (h2 : st.limit < 2 ^ 63) :
    limitNextPage underlying u d st =
      ((underlying u d st.inner).1,
        ⟨st.current + 1, st.limit, (underlying u d st.inner).2⟩) := by
  have hng : ¬ st.current ≥ st.limit := not_le.mpr h
  have hw : int64Wrap (st.current + 1) = st.current + 1 :=
    int64Wrap_eq_self _ (by omega) (by omega)
  simp [limitNextPage, hng, hw]

/-- Witness for C8: the inner strategy fails, the error is propagated
unchanged, and the counter still advances from 0 to 1. -/
theorem c8_witness :
    limitNextPage (σ := Unit) (fun _ _ s => (⟨[], some (.errorMsg (gs "inner failure"))⟩, s))
      (gs "http://x/") (fun _ _ => none) ⟨0, 1, ()⟩ =
      (⟨[], some (.errorMsg (gs "inner failure"))⟩, ⟨1, 1, ()⟩) := by
  have h := c8_delegates_and_increments (σ := Unit)
    (fun _ _ s => (⟨[], some (.errorMsg (gs "inner failure"))⟩, s))
    (gs "http://x/") (fun _ _ => none) ⟨0, 1, ()⟩ (by decide) (by decide) (by decide)
  exact h.trans (by decide)

/-- C9: in the no-match case the result of
`bySelectorPaginator.NextPage` is `("", nil)` and does not depend on the
current URL at all — the URL is never parsed — so a malformed currentURL
is never reported as a URLParseError by this strategy. -/
theorem c9_no_match_ignores_url (sel attr : GoStr) (doc : Doc) (uri uri2 : GoStr)
    (h : doc sel attr = none) :
    nextPageSelector sel attr doc uri = .ok [] ∧
    nextPageSelector sel attr doc uri = nextPageSelector sel attr doc uri2 := by
  constructor
  · simp [nextPageSelector, h]
  · simp [nextPageSelector, h]

/-- Witness for C9: `":"` is rejected by `url.Parse` ("missing protocol
scheme"), yet NextPage on a document with no matching link returns
`("", nil)` for it rather than that URLParseError. -/
theorem c9_witness :
    urlParse (gs ":") =
      .error (.urlError (gs "parse") (gs ":") (.errorMsg (gs "missing protocol scheme"))) ∧
    nextPageSelector (gs "a.next") (gs "href") (fun _ _ => none) (gs ":") = .ok [] :=
  ⟨by decide,
    (c9_no_match_ignores_url (gs "a.next") (gs "href") (fun _ _ => none) (gs ":")
      (gs "http://x/") rfl).1⟩

/-- C10: `LimitPages` does not validate its limit: on a freshly constructed
LimitingPaginator with limit <= 0 every call returns `("", nil)` without
invoking the inner strategy, exactly as with limit == 0. -/
theorem c10_nonpositive_limit {σ : Type} (underlying : Paginator σ)
    (calls : List (GoStr × Doc)) (limit : Int) (innerInit : σ) (h : limit ≤ 0) :
    limitRun underlying calls (LimitPages limit innerInit) =
      (calls.map fun _ => (⟨[], none⟩ : PagResult), LimitPages limit innerInit) ∧
    (limitRun underlying calls (LimitPages limit innerInit)).1 =
      (limitRun underlying calls (LimitPages 0 innerInit)).1 ∧
    ∀ other : Paginator σ,
      limitRun other calls (LimitPages limit innerInit) =
        limitRun underlying calls (LimitPages limit innerInit) := by
  have h0 : (LimitPages (σ := σ) limit innerInit).current ≥
      (LimitPages (σ := σ) limit innerInit).limit := h
  have hz : (LimitPages (σ := σ) 0 innerInit).current ≥
      (LimitPages (σ := σ) 0 innerInit).limit := le_refl 0
  refine ⟨limitRun_stopped underlying calls _ h0, ?_, fun other => ?_⟩
  · rw [limitRun_stopped underlying calls _ h0, limitRun_stopped underlying calls _ hz]
  · rw [limitRun_stopped underlying calls _ h0, limitRun_stopped other calls _ h0]

/-- Witness for C10: limit = -2 behaves like limit = 0 — the single call
returns `("", nil)` and the inner strategy's URL never appears. -/
theorem c10_witness :
    limitRun (σ := Unit) (fun _ _ s => (⟨gs "https://inner.example/x", none⟩, s))
      [(gs "http://x/", fun _ _ => none)] (LimitPages (-2) ()) =
      ([⟨[], none⟩], LimitPages (-2) ()) := by
  have h := c10_nonpositive_limit (σ := Unit)
    (fun _ _ s => (⟨gs "https://inner.example/x", none⟩, s))
    [(gs "http://x/", fun _ _ => none)] (-2) () (by decide)
  exact h.1.trans (by decide)
